import Mathlib

/-!
Verification of the fitkongsns feed / hashtag / mention / toggle logic.

Shallow embedding of the TypeScript sources:
- src/app/api/posts/route.ts      (extractHashtags, GET feed assembler, POST mentions)
- src/unnamed/part_014            (POST /api/comments mention validation)
- src/app/api/likes/route.ts      (POST like handler)
- follows POST handler and SQL schema (src/app/api/users/[userId]/route.ts
  second document, src/unnamed/part_004)
- src/components/post/PostCard.tsx (handleLikeToggle, handleBookmarkToggle,
  initial like state)

JavaScript strings are modelled as Lean String, timestamps as Nat,
the Supabase tables as lists of rows, and the JS Map objects as
functions built by folds exactly mirroring the forEach loops.
-/

/-- Lowercasing, modelling the JS toLowerCase used on captions, tags and
mention display texts (ASCII case mapping; the proofs below do not depend
on the case table). -/
def strLower (s : String) : String := String.mk (s.toList.map Char.toLower)

/-- Does the character list start with the given pattern list. -/
def startsWithL : List Char → List Char → Bool
  | _, [] => true
  | [], _ :: _ => false
  | a :: as, b :: bs => a == b && startsWithL as bs

/-- Substring containment on character lists (haystack, needle). -/
def includesL : List Char → List Char → Bool
  | [], n => n.isEmpty
  | h :: t, n => startsWithL (h :: t) n || includesL t n

/-- Model of the JS String.prototype.includes (literal substring test). -/
def strIncludes (haystack needle : String) : Bool :=
  includesL haystack.toList needle.toList

/-- Character class of the regex tag body: one or more letters, digits or
underscore.  The source regex uses Unicode classes; alphanumeric stands
in for them here, and no proof below depends on the exact class. -/
def isTagChar (c : Char) : Bool := c.isAlphanum || c == '_'

/-- One step of the regex scan of HASHTAG_REGEX, with fuel for structural
recursion: at each sharp sign take the maximal run of tag characters; a
nonempty run is a match whose captured group is lowercased, and scanning
resumes after the run; otherwise the scan advances one character. -/
def scanTagsF : Nat → List Char → List String
  | 0, _ => []
  | _ + 1, [] => []
  | fuel + 1, c :: rest =>
    if c == '#' then
      let run := rest.takeWhile isTagChar
      if run.isEmpty then scanTagsF fuel rest
      else String.mk (run.map Char.toLower) :: scanTagsF fuel (rest.drop run.length)
    else scanTagsF fuel rest

/-- The full regex scan: every step consumes at least one character, so
the input length is always enough fuel. -/
def scanTags (l : List Char) : List String := scanTagsF l.length l

/-- Insertion into the JS Set: keep the element only if not seen yet. -/
def dedupAux (seen : List String) : List String → List String
  | [] => []
  | x :: xs =>
    if seen.contains x then dedupAux seen xs
    else x :: dedupAux (x :: seen) xs

/-- extractHashtags from src/app/api/posts/route.ts: falsy text (null,
undefined or the empty string) yields no tags; otherwise the lowercased
matches are collected into a Set and returned in insertion order. -/
def extractHashtags : Option String → List String
  | none => []
  | some s => if s.isEmpty then [] else dedupAux [] (scanTags s.toList)

-- Sanity checks on concrete captions.
example : extractHashtags (some "#a #b #a") = ["a", "b"] := by decide
example : extractHashtags (some "no tags here") = [] := by decide
example : extractHashtags (some "##x #A_1!") = ["x", "a_1"] := by decide

theorem mem_dedupAux (t : String) :
    ∀ (l seen : List String), t ∈ dedupAux seen l ↔ t ∈ l ∧ t ∉ seen := by
  intro l
  induction l with
  | nil => intro seen; simp [dedupAux]
  | cons x xs ih =>
    intro seen
    rw [dedupAux]
    by_cases hx : x ∈ seen
    · rw [if_pos (List.elem_iff.mpr hx), ih]
      simp only [List.mem_cons]
      constructor
      · exact fun ⟨h1, h2⟩ => ⟨Or.inr h1, h2⟩
      · rintro ⟨h | h, h2⟩
        · exact absurd (h.symm ▸ hx) h2
        · exact ⟨h, h2⟩
    · rw [if_neg (fun hc => hx (List.elem_iff.mp hc)), List.mem_cons, ih]
      simp only [List.mem_cons]
      constructor
      · rintro (h | ⟨h1, h2⟩)
        · refine ⟨Or.inl h, ?_⟩; subst h; exact hx
        · refine ⟨Or.inr h1, ?_⟩
          intro hs; exact h2 (Or.inr hs)
      · rintro ⟨h1, h2⟩
        by_cases ht : t = x
        · exact Or.inl ht
        · rcases h1 with h | h
          · exact absurd h ht
          · refine Or.inr ⟨h, ?_⟩
            rintro (h3 | h3)
            · exact ht h3
            · exact h2 h3

theorem nodup_dedupAux : ∀ (l seen : List String), (dedupAux seen l).Nodup := by
  intro l
  induction l with
  | nil => intro seen; simp [dedupAux]
  | cons x xs ih =>
    intro seen
    rw [dedupAux]
    split
    · exact ih seen
    · refine List.nodup_cons.mpr ⟨fun hmem => ?_, ih (x :: seen)⟩
      exact ((mem_dedupAux x xs (x :: seen)).mp hmem).2 (List.mem_cons_self x seen)

theorem dedupAux_eq_self :
    ∀ (l seen : List String), l.Nodup → (∀ x ∈ l, x ∉ seen) → dedupAux seen l = l := by
  intro l
  induction l with
  | nil => intro seen _ _; rfl
  | cons x xs ih =>
    intro seen hnd hdisj
    have hx : ¬ seen.contains x = true :=
      fun h => hdisj x (List.mem_cons_self x xs) (List.elem_iff.mp h)
    rw [dedupAux, if_neg hx]
    have hnd' := List.nodup_cons.mp hnd
    refine congrArg (x :: ·) (ih (x :: seen) hnd'.2 ?_)
    intro y hy hmem
    rcases List.mem_cons.mp hmem with h | h
    · exact hnd'.1 (h ▸ hy)
    · exact hdisj y (List.mem_cons_of_mem _ hy) h

/-- C1: for every caption text, extractHashtags returns exactly the set of
lowercased regex matches (one membership per match, no duplicates), the
empty list when the text is absent or has no matches, and the result is
idempotent under re-deduplication and order-independent, with
"#a #b #a" extracting exactly the tags a and b. -/
theorem hashtag_extraction_correct :
    (∀ s t, t ∈ extractHashtags (some s) ↔ t ∈ scanTags s.toList) ∧
    (∀ s, (extractHashtags (some s)).Nodup) ∧
    extractHashtags none = [] ∧
    (∀ s, extractHashtags (some s) = [] ↔ scanTags s.toList = []) ∧
    (∀ t, dedupAux [] (extractHashtags t) = extractHashtags t) ∧
    extractHashtags (some "#a #b #a") = ["a", "b"] ∧
    (extractHashtags (some "#b #a #a")).Perm (extractHashtags (some "#a #b #a")) := by
  have hmem : ∀ s t, t ∈ extractHashtags (some s) ↔ t ∈ scanTags s.toList := by
    intro s t
    rw [extractHashtags]
    split
    · have hs : s = "" := (String.isEmpty_iff s).mp (by assumption)
      subst hs; simp [scanTags, scanTagsF]
    · rw [mem_dedupAux]; simp
  have hnodup : ∀ s, (extractHashtags (some s)).Nodup := by
    intro s
    rw [extractHashtags]
    split
    · exact List.nodup_nil
    · exact nodup_dedupAux _ _
  refine ⟨hmem, hnodup, rfl, ?_, ?_, by decide, by decide⟩
  · intro s
    rw [extractHashtags]
    split
    · have hs : s = "" := (String.isEmpty_iff s).mp (by assumption)
      subst hs; simp [scanTags, scanTagsF]
    · cases h : scanTags s.toList with
      | nil => simp [h, dedupAux]
      | cons x xs =>
        simp only [h, List.cons_ne_nil, iff_false]
        rw [dedupAux]
        simp
  · intro t
    cases t with
    | none => rfl
    | some s => exact dedupAux_eq_self _ _ (hnodup s) (by simp)

/-! ## Mention validation (POST /api/posts and POST /api/comments) -/

/-- A candidate mention from the client payload: target user id and the
display text selected while typing. -/
structure MentionCandidate where
  mentioned_user_id : String
  display_text : String
deriving DecidableEq

/-- The substring probe built for a candidate: at-sign plus lowercased
display text. -/
def mentionKey (m : MentionCandidate) : String := "@" ++ strLower m.display_text

/-- The deduplication key built by the source: user id, a dash, then the
probe string (template literal concatenation). -/
def mentionUniqueKey (m : MentionCandidate) : String :=
  m.mentioned_user_id ++ "-" ++ mentionKey m

/-- The validMentions filter of the source: walk the candidates keeping
those whose probe occurs in the normalized text and whose dedup key has
not been seen; seen keys accumulate only for kept candidates. -/
def filterValidAux (normalized : String) (seen : List String) :
    List MentionCandidate → List MentionCandidate
  | [] => []
  | m :: rest =>
    if !(strIncludes normalized (mentionKey m)) || seen.contains (mentionUniqueKey m) then
      filterValidAux normalized seen rest
    else m :: filterValidAux normalized (mentionUniqueKey m :: seen) rest

/-- Mention re-validation against the final text, as run before insert in
both the post and the comment handlers. -/
def filterValidMentions (finalText : String) (cands : List MentionCandidate) :
    List MentionCandidate :=
  filterValidAux (strLower finalText) [] cands

/-- Does a candidate pass the substring re-validation against the final
text (its probe is a literal substring of the lowercased text). -/
def mentionPasses (finalText : String) (m : MentionCandidate) : Bool :=
  strIncludes (strLower finalText) (mentionKey m)

/-- Modelled from the spec words (amended): a candidate is kept iff it
passes the substring test and no earlier candidate with the same
concatenated dedup key also passes. -/
def specMentionFilter (finalText : String) (prior : List MentionCandidate) :
    List MentionCandidate → List MentionCandidate
  | [] => []
  | m :: rest =>
    if mentionPasses finalText m
        && !(prior.any fun p =>
              mentionPasses finalText p && mentionUniqueKey p == mentionUniqueKey m) then
      m :: specMentionFilter finalText (prior ++ [m]) rest
    else specMentionFilter finalText (prior ++ [m]) rest

theorem filterValidAux_eq_spec (text : String) :
    ∀ (cands prior : List MentionCandidate) (seen : List String),
      (∀ k, k ∈ seen ↔ ∃ p ∈ prior, mentionPasses text p = true ∧ mentionUniqueKey p = k) →
      filterValidAux (strLower text) seen cands = specMentionFilter text prior cands := by
  intro cands
  induction cands with
  | nil => intro prior seen _; rfl
  | cons m rest ih =>
    intro prior seen hinv
    rw [filterValidAux, specMentionFilter]
    by_cases hpass : mentionPasses text m = true
    · by_cases hseen : mentionUniqueKey m ∈ seen
      · -- seen key: both sides skip
        have hcontains : seen.contains (mentionUniqueKey m) = true := List.elem_iff.mpr hseen
        have hc1 : (!(strIncludes (strLower text) (mentionKey m))
            || seen.contains (mentionUniqueKey m)) = true := by
          rw [hcontains, Bool.or_true]
        have hany : (prior.any fun p =>
            mentionPasses text p && mentionUniqueKey p == mentionUniqueKey m) = true := by
          rcases (hinv (mentionUniqueKey m)).mp hseen with ⟨p, hp, hpp, hpk⟩
          exact List.any_eq_true.mpr ⟨p, hp, by simp [hpp, hpk]⟩
        have hc2 : (mentionPasses text m
            && !(prior.any fun p =>
              mentionPasses text p && mentionUniqueKey p == mentionUniqueKey m)) = false := by
          rw [hany]
          exact Bool.and_false _
        rw [if_pos hc1, if_neg (by rw [hc2]; exact Bool.false_ne_true)]
        refine ih (prior ++ [m]) seen ?_
        intro k
        rw [hinv k]
        constructor
        · rintro ⟨p, hp, h⟩; exact ⟨p, List.mem_append_left _ hp, h⟩
        · rintro ⟨p, hp, h⟩
          rcases List.mem_append.mp hp with h2 | h2
          · exact ⟨p, h2, h⟩
          · have : p = m := List.mem_singleton.mp h2
            subst this
            rcases (hinv (mentionUniqueKey p)).mp hseen with ⟨q, hq, hqq⟩
            exact ⟨q, hq, hqq.1, by rw [hqq.2, h.2]⟩
      · -- fresh passing key: both sides keep
        have hinc : strIncludes (strLower text) (mentionKey m) = true := hpass
        have hcontains : seen.contains (mentionUniqueKey m) = false := by
          rcases h : seen.contains (mentionUniqueKey m) with _ | _
          · rfl
          · exact absurd (List.elem_iff.mp h) hseen
        have hc1 : (!(strIncludes (strLower text) (mentionKey m))
            || seen.contains (mentionUniqueKey m)) = false := by
          rw [hinc, hcontains]
          rfl
        have hany : (prior.any fun p =>
            mentionPasses text p && mentionUniqueKey p == mentionUniqueKey m) = false := by
          rcases h : prior.any
              (fun p => mentionPasses text p && mentionUniqueKey p == mentionUniqueKey m)
              with _ | _
          · rfl
          · rcases List.any_eq_true.mp h with ⟨p, hp, hpc⟩
            have hpc' := Bool.and_eq_true_iff.mp hpc
            exact absurd ((hinv (mentionUniqueKey m)).mpr
              ⟨p, hp, hpc'.1, by simpa using hpc'.2⟩) hseen
        have hc2 : (mentionPasses text m
            && !(prior.any fun p =>
              mentionPasses text p && mentionUniqueKey p == mentionUniqueKey m)) = true := by
          rw [hpass, hany]
          rfl
        rw [if_neg (by rw [hc1]; exact Bool.false_ne_true), if_pos hc2]
        refine congrArg (m :: ·) (ih (prior ++ [m]) (mentionUniqueKey m :: seen) ?_)
        intro k
        simp only [List.mem_cons]
        constructor
        · rintro (h | h)
          · exact ⟨m, List.mem_append_right _ (List.mem_singleton_self m), hpass, h.symm⟩
          · rcases (hinv k).mp h with ⟨p, hp, hh⟩
            exact ⟨p, List.mem_append_left _ hp, hh⟩
        · rintro ⟨p, hp, hh⟩
          rcases List.mem_append.mp hp with h2 | h2
          · exact Or.inr ((hinv k).mpr ⟨p, h2, hh⟩)
          · have : p = m := List.mem_singleton.mp h2
            subst this
            exact Or.inl hh.2.symm
    · -- failing candidate: both sides skip, prior gains no passing member
      have hinc : strIncludes (strLower text) (mentionKey m) = false :=
        Bool.eq_false_iff.mpr hpass
      have hc1 : (!(strIncludes (strLower text) (mentionKey m))
          || seen.contains (mentionUniqueKey m)) = true := by
        rw [hinc]
        rfl
      have hc2 : (mentionPasses text m
          && !(prior.any fun p =>
            mentionPasses text p && mentionUniqueKey p == mentionUniqueKey m)) = false := by
        rw [show mentionPasses text m = false from hinc]
        rfl
      rw [if_pos hc1, if_neg (by rw [hc2]; exact Bool.false_ne_true)]
      refine ih (prior ++ [m]) seen ?_
      intro k
      rw [hinv k]
      constructor
      · rintro ⟨p, hp, h⟩; exact ⟨p, List.mem_append_left _ hp, h⟩
      · rintro ⟨p, hp, h⟩
        rcases List.mem_append.mp hp with h2 | h2
        · exact ⟨p, h2, h⟩
        · have : p = m := List.mem_singleton.mp h2
          subst this
          exact absurd h.1 hpass

theorem mem_filterValidAux_passes (text : String) (m : MentionCandidate) :
    ∀ (cands : List MentionCandidate) (seen : List String),
      m ∈ filterValidAux (strLower text) seen cands → mentionPasses text m = true := by
  intro cands
  induction cands with
  | nil => intro seen h; simp [filterValidAux] at h
  | cons c rest ih =>
    intro seen h
    rw [filterValidAux] at h
    split at h
    · exact ih seen h
    · rcases List.mem_cons.mp h with h2 | h2
      · subst h2
        rename_i hcond
        simp only [Bool.or_eq_true, Bool.not_eq_true', not_or] at hcond
        simpa [mentionPasses] using hcond.1
      · exact ih _ h2

/-- First collision candidate for the dedup key: user id containing a
dash and at-sign. -/
def mcCollide1 : MentionCandidate := ⟨"a-@b", "c"⟩

/-- Second collision candidate: distinct pair, same concatenated key. -/
def mcCollide2 : MentionCandidate := ⟨"a", "b-@c"⟩

/-- C2 counterexample: the source deduplicates on the concatenated string
uid-@lowertext, which conflates the distinct pairs (a-@b, c) and
(a, b-@c); the second candidate passes the substring re-validation and is
the only candidate with its (user id, lowercased display text) pair, yet
it is not persisted. -/
theorem mention_pair_key_counterexample :
    filterValidMentions "@b-@c" [mcCollide1, mcCollide2] = [mcCollide1] ∧
    mentionPasses "@b-@c" mcCollide2 = true ∧
    mcCollide1.mentioned_user_id ≠ mcCollide2.mentioned_user_id ∧
    mentionUniqueKey mcCollide1 = mentionUniqueKey mcCollide2 ∧
    mcCollide2 ∉ filterValidMentions "@b-@c" [mcCollide1, mcCollide2] := by
  decide

/-- C2 (amended): a candidate is persisted iff its probe (at-sign plus
lowercased display text) occurs in the lowercased final text and no
earlier candidate with the same concatenated dedup key uid-@lowertext
also passes; in particular no candidate failing the substring test is
ever persisted.  The concatenated key agrees with the claimed pair key
(target user id, lowercased display text) whenever the concatenation is
injective, e.g. for UUID user ids. -/
theorem mention_validation_correct :
    (∀ text cands, filterValidMentions text cands = specMentionFilter text [] cands) ∧
    (∀ text cands m, m ∈ filterValidMentions text cands → mentionPasses text m = true) := by
  constructor
  · intro text cands
    exact filterValidAux_eq_spec text cands [] [] (by simp)
  · intro text cands m hm
    exact mem_filterValidAux_passes text m cands [] hm

/-- Witness for C2 at a concrete candidate list. -/
theorem mention_validation_correct_witness :
    mentionPasses "hi @bob" ⟨"u1", "bob"⟩ = true :=
  mention_validation_correct.2 "hi @bob" [⟨"u1", "bob"⟩] ⟨"u1", "bob"⟩ (by decide)

/-! ## Data model: Supabase tables as lists of rows -/

/-- Row of the users table (columns used by the handlers). -/
structure UserRow where
  id : String
  clerk_id : String
  name : String
deriving DecidableEq

/-- Row of the posts table. -/
structure PostRow where
  id : String
  user_id : String
  image_url : String
  caption : Option String
  created_at : Nat
deriving DecidableEq

/-- Row of the likes table (the surrogate primary key is omitted: each
list entry is one like row). -/
structure LikeRow where
  post_id : String
  user_id : String
deriving DecidableEq

/-- Row of the comments table. -/
structure CommentRow where
  id : String
  post_id : String
  user_id : String
  content : String
  created_at : Nat
deriving DecidableEq

/-- Row of the mentions table: parent is a post or a comment. -/
structure MentionRow where
  post_id : Option String
  comment_id : Option String
  mentioned_user_id : String
  mentioner_user_id : String
  display_text : String
deriving DecidableEq

/-- Row of the bookmarks table. -/
structure BookmarkRow where
  post_id : String
  user_id : String
deriving DecidableEq

/-- Row of the follows table. -/
structure FollowRow where
  follower_id : String
  following_id : String
deriving DecidableEq

/-- The relational store. -/
structure DB where
  users : List UserRow
  posts : List PostRow
  likes : List LikeRow
  comments : List CommentRow
  mentions : List MentionRow
  bookmarks : List BookmarkRow
  follows : List FollowRow
deriving DecidableEq

/-! ## Descending order by creation time (the SQL order by created_at desc) -/

/-- Insert before the first element with a strictly smaller key. -/
def insertByDesc {α : Type} (key : α → Nat) (x : α) : List α → List α
  | [] => [x]
  | y :: ys => if key y < key x then x :: y :: ys else y :: insertByDesc key x ys

/-- Deterministic sort by descending key, modelling order by created_at
descending. -/
def sortByDesc {α : Type} (key : α → Nat) : List α → List α
  | [] => []
  | x :: xs => insertByDesc key x (sortByDesc key xs)

theorem perm_insertByDesc {α : Type} (key : α → Nat) (x : α) :
    ∀ l : List α, (insertByDesc key x l).Perm (x :: l) := by
  intro l
  induction l with
  | nil => exact List.Perm.refl _
  | cons y ys ih =>
    rw [insertByDesc]
    split
    · exact List.Perm.refl _
    · exact (List.Perm.cons y ih).trans (List.Perm.swap x y ys)

theorem perm_sortByDesc {α : Type} (key : α → Nat) :
    ∀ l : List α, (sortByDesc key l).Perm l := by
  intro l
  induction l with
  | nil => exact List.Perm.refl _
  | cons x xs ih =>
    exact (perm_insertByDesc key x (sortByDesc key xs)).trans (List.Perm.cons x ih)

theorem pairwise_insertByDesc {α : Type} (key : α → Nat) (x : α) :
    ∀ l : List α, List.Pairwise (fun a b => key b ≤ key a) l →
      List.Pairwise (fun a b => key b ≤ key a) (insertByDesc key x l) := by
  intro l
  induction l with
  | nil => intro _; exact List.pairwise_singleton _ x
  | cons y ys ih =>
    intro h
    have hy := List.pairwise_cons.mp h
    rw [insertByDesc]
    split
    · rename_i hlt
      refine List.pairwise_cons.mpr ⟨?_, h⟩
      intro z hz
      rcases List.mem_cons.mp hz with h2 | h2
      · exact h2 ▸ Nat.le_of_lt hlt
      · exact Nat.le_trans (hy.1 z h2) (Nat.le_of_lt hlt)
    · rename_i hge
      refine List.pairwise_cons.mpr ⟨?_, ih hy.2⟩
      intro z hz
      have hz' := (perm_insertByDesc key x ys).mem_iff.mp hz
      rcases List.mem_cons.mp hz' with h2 | h2
      · exact h2 ▸ Nat.le_of_not_lt hge
      · exact hy.1 z h2

theorem pairwise_sortByDesc {α : Type} (key : α → Nat) :
    ∀ l : List α, List.Pairwise (fun a b => key b ≤ key a) (sortByDesc key l) := by
  intro l
  induction l with
  | nil => exact List.Pairwise.nil
  | cons x xs ih => exact pairwise_insertByDesc key x _ ih

theorem insertByDesc_map {α β : Type} (key : β → Nat) (f : α → β) (x : α) :
    ∀ l : List α, insertByDesc key (f x) (l.map f) = (insertByDesc (fun a => key (f a)) x l).map f := by
  intro l
  induction l with
  | nil => rfl
  | cons y ys ih =>
    rw [List.map_cons, insertByDesc, insertByDesc]
    split
    · rfl
    · rw [List.map_cons, ih]

theorem sortByDesc_map {α β : Type} (key : β → Nat) (f : α → β) :
    ∀ l : List α, sortByDesc key (l.map f) = (sortByDesc (fun a => key (f a)) l).map f := by
  intro l
  induction l with
  | nil => rfl
  | cons x xs ih =>
    rw [List.map_cons, sortByDesc, sortByDesc, ih]
    exact insertByDesc_map key f x _

theorem insertByDesc_eq_cons {α : Type} (key : α → Nat) (x : α) (l : List α)
    (h : ∀ z ∈ l, key z < key x) : insertByDesc key x l = x :: l := by
  cases l with
  | nil => rfl
  | cons z zs => rw [insertByDesc, if_pos (h z (List.mem_cons_self z zs))]

theorem filter_insertByDesc {α : Type} (key : α → Nat) (p : α → Bool) (x : α) :
    ∀ l : List α, List.Pairwise (fun a b => key b ≤ key a) l →
      (insertByDesc key x l).filter p =
        if p x then insertByDesc key x (l.filter p) else l.filter p := by
  intro l
  induction l with
  | nil =>
    intro _
    cases hpx : p x <;> simp [insertByDesc, List.filter_cons, hpx]
  | cons y ys ih =>
    intro hsorted
    have hy := List.pairwise_cons.mp hsorted
    rw [insertByDesc]
    split
    · rename_i hlt
      -- x lands in front; every element of y :: ys has a strictly smaller key
      cases hpx : p x
      · simp [List.filter_cons, hpx]
      · rw [List.filter_cons, hpx, if_pos rfl]
        have hsmall : ∀ z ∈ (y :: ys).filter p, key z < key x := by
          intro z hz
          rcases List.mem_cons.mp (List.mem_of_mem_filter hz) with h2 | h2
          · exact h2 ▸ hlt
          · exact Nat.lt_of_le_of_lt (hy.1 z h2) hlt
        rw [insertByDesc_eq_cons key x _ hsmall]
        rfl
    · rename_i hge
      rw [List.filter_cons, List.filter_cons, ih hy.2]
      cases hpx : p x
      · cases hpy : p y <;> simp [hpx, hpy]
      · cases hpy : p y
        · simp [hpx, hpy]
        · simp [hpx, hpy]
          rw [insertByDesc, if_neg hge]

theorem filter_sortByDesc {α : Type} (key : α → Nat) (p : α → Bool) :
    ∀ l : List α, (sortByDesc key l).filter p = sortByDesc key (l.filter p) := by
  intro l
  induction l with
  | nil => rfl
  | cons x xs ih =>
    rw [sortByDesc, List.filter_cons,
      filter_insertByDesc key p x _ (pairwise_sortByDesc key xs)]
    cases hpx : p x
    · simp [ih]
    · simp only [if_pos trivial]
      rw [ih, sortByDesc]

/-! ## In-memory like/comment count maps (the forEach loops of the
fallback and hashtag paths) -/

/-- One step of the count loop: the Map set of (get or zero) plus one. -/
def bumpCount (m : String → Nat) (id : String) : String → Nat :=
  fun k => if k == id then m k + 1 else m k

/-- The count Map built by the forEach loop, as a function with default
zero (the get-or-zero read). -/
def buildCountMap (ids : List String) : String → Nat :=
  ids.foldl bumpCount (fun _ => 0)

theorem foldl_bumpCount (k : String) :
    ∀ (ids : List String) (m : String → Nat),
      (ids.foldl bumpCount m) k = m k + ids.count k := by
  intro ids
  induction ids with
  | nil => intro m; simp
  | cons id rest ih =>
    intro m
    rw [List.foldl_cons, ih, List.count_cons]
    by_cases h : k = id
    · subst h
      simp [bumpCount]
      omega
    · have h2 : (k == id) = false := by simp [h]
      have h3 : (id == k) = false := by simp [Ne.symm h]
      simp [bumpCount, h2, h3]

theorem buildCountMap_count (ids : List String) (k : String) :
    buildCountMap ids k = ids.count k := by
  rw [buildCountMap, foldl_bumpCount]
  exact Nat.zero_add _

theorem count_map_eq_countP {α : Type} (f : α → String) (a : String) :
    ∀ l : List α, (l.map f).count a = l.countP (fun x => f x == a) := by
  intro l
  induction l with
  | nil => rfl
  | cons x xs ih => rw [List.map_cons, List.count_cons, List.countP_cons, ih]

/-! ## Feed assembly: post_stats view path and base-table fallback path -/

/-- The shape shared by a post_stats view row and the record the fallback
path builds from the posts table plus count maps. -/
structure FeedItem where
  post_id : String
  user_id : String
  image_url : String
  caption : Option String
  created_at : Nat
  likes_count : Nat
  comments_count : Nat
deriving DecidableEq

/-- A row of the post_stats SQL view: the post columns plus the count of
like rows and comment rows of the post (COUNT DISTINCT over primary
keys, i.e. the number of rows). -/
def postStatsRow (db : DB) (p : PostRow) : FeedItem :=
  { post_id := p.id, user_id := p.user_id, image_url := p.image_url,
    caption := p.caption, created_at := p.created_at,
    likes_count := db.likes.countP (fun l => l.post_id == p.id),
    comments_count := db.comments.countP (fun c => c.post_id == p.id) }

/-- The post_stats rows after the optional author filter. -/
def viewFiltered (db : DB) : Option String → List FeedItem
  | none => db.posts.map (postStatsRow db)
  | some uid => (db.posts.map (postStatsRow db)).filter (fun r => r.user_id == uid)

/-- offset = (page - 1) * limit. -/
def feedOffset (page limit : Nat) : Nat := (page - 1) * limit

/-- Primary path: select from post_stats ordered by created_at
descending with range(offset, offset + limit - 1). -/
def viewPathPosts (db : DB) (target : Option String) (page limit : Nat) : List FeedItem :=
  ((sortByDesc (fun r => r.created_at) (viewFiltered db target)).drop
    (feedOffset page limit)).take limit

/-- The posts table after the optional author filter. -/
def postsFiltered (db : DB) : Option String → List PostRow
  | none => db.posts
  | some uid => db.posts.filter (fun p => p.user_id == uid)

/-- The in-memory combination step of the fallback path: fetch likes and
comments restricted to the page's post ids, build the two count maps,
and zip them onto the page rows. -/
def fallbackRows (db : DB) (pageRows : List PostRow) : List FeedItem :=
  let postIds := pageRows.map (fun p => p.id)
  let likesRows := db.likes.filter (fun l => postIds.contains l.post_id)
  let commentsRows := db.comments.filter (fun c => postIds.contains c.post_id)
  let likesCountMap := buildCountMap (likesRows.map (fun l => l.post_id))
  let commentsCountMap := buildCountMap (commentsRows.map (fun c => c.post_id))
  pageRows.map (fun p =>
    { post_id := p.id, user_id := p.user_id, image_url := p.image_url,
      caption := p.caption, created_at := p.created_at,
      likes_count := likesCountMap p.id,
      comments_count := commentsCountMap p.id })

/-- Fallback path: select from posts ordered by created_at descending
with the same range, then combine counts in memory. -/
def fallbackPathPosts (db : DB) (target : Option String) (page limit : Nat) : List FeedItem :=
  fallbackRows db
    (((sortByDesc (fun p => p.created_at) (postsFiltered db target)).drop
      (feedOffset page limit)).take limit)

/-- The branch on availability of the post_stats view: the catch
handler falls back to the base tables instead of failing. -/
def assembleBasePosts (db : DB) (viewOk : Bool) (target : Option String)
    (page limit : Nat) : List FeedItem :=
  if viewOk then viewPathPosts db target page limit
  else fallbackPathPosts db target page limit

theorem fallback_count_eq {α : Type} (pageRows : List PostRow) (rows : List α)
    (pid : α → String) (p : PostRow) (hp : p ∈ pageRows) :
    buildCountMap ((rows.filter
        (fun l => (pageRows.map (fun q => q.id)).contains (pid l))).map pid) p.id
      = rows.countP (fun l => pid l == p.id) := by
  rw [buildCountMap_count, count_map_eq_countP, List.countP_filter]
  refine List.countP_congr ?_
  intro l _
  cases hl : (pid l == p.id)
  · simp
  · have hpl : pid l = p.id := by simpa using hl
    simp
    exact ⟨p, hp, hpl.symm⟩

theorem fallbackRows_eq_map (db : DB) (pageRows : List PostRow) :
    fallbackRows db pageRows = pageRows.map (postStatsRow db) := by
  rw [fallbackRows]
  refine List.map_eq_map_iff.mpr ?_
  intro p hp
  rw [postStatsRow,
    fallback_count_eq pageRows db.likes (fun l => l.post_id) p hp,
    fallback_count_eq pageRows db.comments (fun c => c.post_id) p hp]

theorem viewFiltered_eq_map (db : DB) (target : Option String) :
    viewFiltered db target = (postsFiltered db target).map (postStatsRow db) := by
  cases target with
  | none => rfl
  | some uid =>
    rw [viewFiltered, postsFiltered, List.filter_map]
    rfl

/-- C4: for every store state, author filter and page, the fallback path
(count queries on the base tables combined in memory) produces exactly
the posts payload of the post_stats view path: same posts, same like and
comment counts; the assembler result does not depend on view
availability. -/
theorem feed_fallback_equivalent :
    ∀ (db : DB) (target : Option String) (page limit : Nat),
      fallbackPathPosts db target page limit = viewPathPosts db target page limit ∧
      assembleBasePosts db false target page limit = assembleBasePosts db true target page limit := by
  have main : ∀ (db : DB) (target : Option String) (page limit : Nat),
      fallbackPathPosts db target page limit = viewPathPosts db target page limit := by
    intro db target page limit
    have hkeyfun : (fun a : PostRow => (postStatsRow db a).created_at)
        = fun p : PostRow => p.created_at := rfl
    rw [fallbackPathPosts, fallbackRows_eq_map, viewPathPosts, viewFiltered_eq_map,
      sortByDesc_map, ← List.map_drop, ← List.map_take, hkeyfun]
  intro db target page limit
  refine ⟨main db target page limit, ?_⟩
  rw [assembleBasePosts, assembleBasePosts, if_pos rfl,
    if_neg (by exact Bool.false_ne_true), main db target page limit]

/-! ## Pagination and hasMore (GET /api/posts) -/

/-- Total row count of post_stats after the author filter: the exact
count query run when the hashtag branch left no total. -/
def mainFeedTotal (db : DB) (target : Option String) : Nat :=
  (viewFiltered db target).length

/-- hasMore of the main path: count is truthy and offset + limit is
below it (a zero count is falsy in JS and yields false, which agrees
with the comparison). -/
def mainFeedHasMore (db : DB) (target : Option String) (page limit : Nat) : Bool :=
  decide (feedOffset page limit + limit < mainFeedTotal db target)

/-- Hashtag branch of the GET handler: filter out falsy ids, slice the
join-table id list at offset..offset+limit, fetch those posts ordered by
created_at descending, and combine like/comment counts in memory (the
same in-memory combination as the fallback path). -/
def hashtagPathPosts (db : DB) (joinPostIds : List String) (page limit : Nat) :
    List FeedItem :=
  let allPostIds := joinPostIds.filter (fun s => !s.isEmpty)
  let paged := (allPostIds.drop (feedOffset page limit)).take limit
  fallbackRows db
    (sortByDesc (fun p => p.created_at) (db.posts.filter (fun p => paged.contains p.id)))

/-- Total of the hashtag branch: the number of (truthy) join rows. -/
def hashtagTotal (joinPostIds : List String) : Nat :=
  (joinPostIds.filter (fun s => !s.isEmpty)).length

/-- hasMore of the hashtag branch. -/
def hashtagHasMore (joinPostIds : List String) (page limit : Nat) : Bool :=
  decide (feedOffset page limit + limit < hashtagTotal joinPostIds)

/-- A store with two posts by one author, the second more recent. -/
def feedExampleDB : DB :=
  { users := [⟨"uA", "cA", "A"⟩],
    posts := [⟨"p1", "uA", "i1", none, 1⟩, ⟨"p2", "uA", "i2", none, 2⟩],
    likes := [], comments := [], mentions := [], bookmarks := [], follows := [] }

/-- C3 counterexample: with the hashtag filter, page 1 of size 1 over
join rows [p1, p2] returns the OLDER post p1 (the slice is taken from
the join-table row order before any time ordering), while position 1 of
the descending-creation order is p2 — so pages do not correspond to
positions of the time-ordered list. -/
theorem feed_hashtag_page_counterexample :
    hashtagPathPosts feedExampleDB ["p1", "p2"] 1 1
        = [⟨"p1", "uA", "i1", none, 1, 0, 0⟩] ∧
    (sortByDesc (fun r => r.created_at)
        (feedExampleDB.posts.map (postStatsRow feedExampleDB))).take 1
        = [⟨"p2", "uA", "i2", none, 2, 0, 0⟩] ∧
    (⟨"p1", "uA", "i1", none, 1, 0, 0⟩ : FeedItem)
        ≠ ⟨"p2", "uA", "i2", none, 2, 0, 0⟩ := by
  decide

theorem pairwise_viewPathPosts (db : DB) (target : Option String) (page limit : Nat) :
    List.Pairwise (fun a b : FeedItem => b.created_at ≤ a.created_at)
      (viewPathPosts db target page limit) := by
  have h := pairwise_sortByDesc (fun r : FeedItem => r.created_at) (viewFiltered db target)
  exact (List.Pairwise.drop h).sublist (List.take_sublist _ _)

theorem nodup_viewPage_keys (db : DB) (target : Option String) (page limit : Nat)
    (hnd : (db.posts.map (fun p => p.created_at)).Nodup) :
    ((viewPathPosts db target page limit).map (fun r => r.created_at)).Nodup := by
  have hsubposts : (postsFiltered db target).Sublist db.posts := by
    cases target with
    | none => exact List.Sublist.refl _
    | some uid => exact List.filter_sublist _
  have hnd1 : ((postsFiltered db target).map (fun p => p.created_at)).Nodup :=
    hnd.sublist (hsubposts.map _)
  have hkeys : (viewFiltered db target).map (fun r => r.created_at)
      = (postsFiltered db target).map (fun p => p.created_at) := by
    rw [viewFiltered_eq_map, List.map_map]
    rfl
  have hnd2 : ((viewFiltered db target).map (fun r => r.created_at)).Nodup := by
    rw [hkeys]; exact hnd1
  have hperm : ((sortByDesc (fun r : FeedItem => r.created_at) (viewFiltered db target)).map
      (fun r => r.created_at)).Perm
        ((viewFiltered db target).map (fun r => r.created_at)) :=
    (perm_sortByDesc _ _).map _
  have hnd3 := hperm.nodup_iff.mpr hnd2
  have hsubpage : (viewPathPosts db target page limit).Sublist
      (sortByDesc (fun r : FeedItem => r.created_at) (viewFiltered db target)) :=
    (List.take_sublist _ _).trans (List.drop_sublist _ _)
  exact hnd3.sublist (hsubpage.map _)

/-- C3 (amended): the unfiltered / author-filtered path pages the
descending-creation order (page p holds positions (p-1)L..pL-1, pairwise
descending, strictly so when creation times are distinct) and hasMore is
true iff page*limit is below the filtered total; the hashtag-filtered
path also returns each page internally ordered by descending creation
time and uses the same hasMore formula over the join-row total, but its
pages slice the join-table row order, not the time order (see the
counterexample). -/
theorem feed_pagination_correct :
    (∀ (db : DB) (target : Option String) (page limit : Nat),
      viewPathPosts db target page limit =
        ((sortByDesc (fun r : FeedItem => r.created_at) (viewFiltered db target)).drop
          ((page - 1) * limit)).take limit) ∧
    (∀ (db : DB) (target : Option String) (page limit : Nat),
      List.Pairwise (fun a b : FeedItem => b.created_at ≤ a.created_at)
        (viewPathPosts db target page limit)) ∧
    (∀ (db : DB) (target : Option String) (page limit : Nat),
      (db.posts.map (fun p => p.created_at)).Nodup →
      List.Pairwise (fun a b : FeedItem => b.created_at < a.created_at)
        (viewPathPosts db target page limit)) ∧
    (∀ (db : DB) (target : Option String) (page limit : Nat), 1 ≤ page →
      (mainFeedHasMore db target page limit = true ↔
        page * limit < mainFeedTotal db target)) ∧
    (∀ (db : DB) (joinIds : List String) (page limit : Nat),
      List.Pairwise (fun a b : FeedItem => b.created_at ≤ a.created_at)
        (hashtagPathPosts db joinIds page limit)) ∧
    (∀ (joinIds : List String) (page limit : Nat), 1 ≤ page →
      (hashtagHasMore joinIds page limit = true ↔
        page * limit < hashtagTotal joinIds)) := by
  refine ⟨fun db t p l => rfl, pairwise_viewPathPosts, ?_, ?_, ?_, ?_⟩
  · intro db t page limit hnd
    have h1 := pairwise_viewPathPosts db t page limit
    have h2 : ((viewPathPosts db t page limit).map (fun r => r.created_at)).Pairwise
        (fun a b => a ≠ b) := nodup_viewPage_keys db t page limit hnd
    have h3 := List.pairwise_map.mp h2
    exact (h1.and h3).imp (fun h => Nat.lt_of_le_of_ne h.1 (Ne.symm h.2))
  · intro db t page limit hpage
    obtain ⟨n, rfl⟩ : ∃ n, page = n + 1 := ⟨page - 1, by omega⟩
    rw [mainFeedHasMore, feedOffset, decide_eq_true_iff]
    rw [show (n + 1 - 1) * limit + limit = (n + 1) * limit by
      rw [Nat.add_sub_cancel, Nat.succ_mul]]
  · intro db joinIds page limit
    simp only [hashtagPathPosts]
    rw [fallbackRows_eq_map]
    refine List.pairwise_map.mpr ?_
    exact (pairwise_sortByDesc (fun p : PostRow => p.created_at) _).imp (fun h => h)
  · intro joinIds page limit hpage
    obtain ⟨n, rfl⟩ : ∃ n, page = n + 1 := ⟨page - 1, by omega⟩
    rw [hashtagHasMore, feedOffset, decide_eq_true_iff]
    rw [show (n + 1 - 1) * limit + limit = (n + 1) * limit by
      rw [Nat.add_sub_cancel, Nat.succ_mul]]

/-- Witness for C3 at a concrete store, page and limit. -/
theorem feed_pagination_correct_witness :
    List.Pairwise (fun a b : FeedItem => b.created_at < a.created_at)
      (viewPathPosts feedExampleDB none 1 10) ∧
    (mainFeedHasMore feedExampleDB none 1 10 = true ↔
      1 * 10 < mainFeedTotal feedExampleDB none) ∧
    (hashtagHasMore ["p1"] 1 1 = true ↔ 1 * 1 < hashtagTotal ["p1"]) :=
  ⟨feed_pagination_correct.2.2.1 feedExampleDB none 1 10 (by decide),
   feed_pagination_correct.2.2.2.1 feedExampleDB none 1 10 (by decide),
   feed_pagination_correct.2.2.2.2.2 ["p1"] 1 1 (by decide)⟩

/-! ## Full feed payload assembly (GET /api/posts, lines 423-590) -/

/-- A resolved mention in the payload: the literal display text and the
referenced user (id, clerk_id, name). -/
structure MentionOut where
  display_text : String
  user : UserRow
deriving DecidableEq

/-- A comment of the two-comment preview, with its author and mentions. -/
structure CommentOut where
  id : String
  content : String
  created_at : Nat
  user : UserRow
  mentions : List MentionOut
deriving DecidableEq

/-- One post of the feed payload.  The Clerk-derived image url fields are
external-service data and are not modelled; every other field of the
JSON object is here.  There is no liked flag in this payload. -/
structure PostOut where
  id : String
  user_id : String
  image_url : String
  caption : Option String
  created_at : Nat
  likes_count : Nat
  comments_count : Nat
  user : UserRow
  comments : List CommentOut
  mentions : List MentionOut
  isBookmarked : Bool
deriving DecidableEq

/-- The embedded user join (first users row with the given id). -/
def findUser (db : DB) (uid : String) : Option UserRow :=
  db.users.find? (fun u => u.id == uid)

/-- The comment object pushed into the preview: id, content, created_at,
the embedded author, and the mentions looked up by comment id. -/
def toCommentOut (db : DB) (cm : String → List MentionOut) (c : CommentRow) : CommentOut :=
  ⟨c.id, c.content, c.created_at, (findUser db c.user_id).getD ⟨c.user_id, "", ""⟩, cm c.id⟩

/-- A JS Map of lists built by a forEach that appends one value per
selected row under the selected key. -/
def appendGroup {β γ : Type} (sel : β → Option (String × γ)) (rows : List β) :
    String → List γ :=
  rows.foldl
    (fun m row =>
      match sel row with
      | some kv => fun q => if kv.1 == q then m q ++ [kv.2] else m q
      | none => m)
    (fun _ => [])

theorem foldl_appendGroup {β γ : Type} (sel : β → Option (String × γ)) (q : String) :
    ∀ (rows : List β) (m : String → List γ),
      (rows.foldl
        (fun m row =>
          match sel row with
          | some kv => fun r => if kv.1 == r then m r ++ [kv.2] else m r
          | none => m) m) q
        = m q ++ rows.filterMap
            (fun row => match sel row with
              | some kv => if kv.1 == q then some kv.2 else none
              | none => none) := by
  intro rows
  induction rows with
  | nil => intro m; simp
  | cons row rest ih =>
    intro m
    rw [List.foldl_cons, ih, List.filterMap_cons]
    cases hsel : sel row with
    | none => simp
    | some kv =>
      cases hq : (kv.1 == q)
      · simp [hq]
      · simp [hq]

theorem appendGroup_eq {β γ : Type} (sel : β → Option (String × γ)) (rows : List β)
    (q : String) :
    appendGroup sel rows q
      = rows.filterMap
          (fun row => match sel row with
            | some kv => if kv.1 == q then some kv.2 else none
            | none => none) := by
  rw [appendGroup, foldl_appendGroup]
  simp

/-- Rows returned by the comment-mention query: comment_id among the
fetched comment ids, post_id null. -/
def fetchedCommentMentions (db : DB) (commentIds : List String) : List MentionRow :=
  db.mentions.filter (fun m =>
    (match m.comment_id with
     | some k => commentIds.contains k
     | none => false) && m.post_id.isNone)

/-- Rows returned by the post-mention query: post_id among the page's
post ids, comment_id null. -/
def fetchedPostMentions (db : DB) (postIds : List String) : List MentionRow :=
  db.mentions.filter (fun m =>
    (match m.post_id with
     | some k => postIds.contains k
     | none => false) && m.comment_id.isNone)

/-- Selector of the comment-mention forEach: rows with a falsy comment id
or an unresolved mentioned user are skipped. -/
def commentMentionSel (db : DB) (row : MentionRow) : Option (String × MentionOut) :=
  match row.comment_id, findUser db row.mentioned_user_id with
  | some k, some u => if k.isEmpty then none else some (k, ⟨row.display_text, u⟩)
  | _, _ => none

/-- Selector of the post-mention forEach: rows with an unresolved
mentioned user are skipped. -/
def postMentionSel (db : DB) (row : MentionRow) : Option (String × MentionOut) :=
  match row.post_id, findUser db row.mentioned_user_id with
  | some k, some u => some (k, ⟨row.display_text, u⟩)
  | _, _ => none

/-- commentMentionsMap of the source, as a function with default []. -/
def commentMentionsMap (db : DB) (rows : List MentionRow) : String → List MentionOut :=
  appendGroup (commentMentionSel db) rows

/-- postMentionsByPostId of the source, as a function with default []. -/
def postMentionsMap (db : DB) (rows : List MentionRow) : String → List MentionOut :=
  appendGroup (postMentionSel db) rows

/-- The comment query of the preview: all comments of the page's posts,
ordered by created_at descending. -/
def fetchedComments (db : DB) (postIds : List String) : List CommentRow :=
  sortByDesc (fun c => c.created_at) (db.comments.filter (fun c => postIds.contains c.post_id))

/-- One step of the preview forEach: push the comment under its post id
while fewer than two comments are collected there. -/
def previewStep (db : DB) (cm : String → List MentionOut)
    (m : String → List CommentOut) (c : CommentRow) : String → List CommentOut :=
  fun q =>
    if c.post_id == q then
      if (m q).length < 2 then m q ++ [toCommentOut db cm c] else m q
    else m q

/-- commentsByPostId of the source: at most two comments per post, in
fetch order (most recent first). -/
def previewMap (db : DB) (cm : String → List MentionOut) (cs : List CommentRow) :
    String → List CommentOut :=
  cs.foldl (previewStep db cm) (fun _ => [])

/-- The viewer's bookmarked post ids among the page's posts (empty when
unauthenticated). -/
def bookmarkedIds (db : DB) (viewer : Option String) (postIds : List String) : List String :=
  match viewer with
  | none => []
  | some v =>
    (db.bookmarks.filter (fun b => b.user_id == v && postIds.contains b.post_id)).map
      (fun b => b.post_id)

/-- The truthy post ids of the page (the filter(Boolean) of the source). -/
def pagePostIds (postsData : List FeedItem) : List String :=
  (postsData.map (fun p => p.post_id)).filter (fun s => !s.isEmpty)

/-- The truthy author ids of the page. -/
def pageUserIds (postsData : List FeedItem) : List String :=
  (postsData.map (fun p => p.user_id)).filter (fun s => !s.isEmpty)

/-- The final mapping of one postsData row to a payload post: embedded
author with fallbacks (Unknown name, post user id), comment preview,
post mentions, and the viewer's bookmark flag. -/
def assemblePostItem (db : DB) (viewer : Option String) (postsData : List FeedItem)
    (p : FeedItem) : PostOut :=
  let postIds := pagePostIds postsData
  let usersData := db.users.filter (fun u => (pageUserIds postsData).contains u.id)
  let bms := bookmarkedIds db viewer postIds
  let cs := fetchedComments db postIds
  let cmm := commentMentionsMap db (fetchedCommentMentions db (cs.map (fun c => c.id)))
  let pmm := postMentionsMap db (fetchedPostMentions db postIds)
  let pv := previewMap db cmm cs
  { id := p.post_id, user_id := p.user_id, image_url := p.image_url,
    caption := p.caption, created_at := p.created_at,
    likes_count := p.likes_count, comments_count := p.comments_count,
    user :=
      match usersData.find? (fun u => u.id == p.user_id) with
      | some u => ⟨if u.id.isEmpty then p.user_id else u.id, u.clerk_id,
                   if u.name.isEmpty then "Unknown" else u.name⟩
      | none => ⟨p.user_id, "", "Unknown"⟩,
    comments := pv p.post_id,
    mentions := pmm p.post_id,
    isBookmarked := bms.contains p.post_id }

/-- The posts array of the GET response. -/
def assembleFeed (db : DB) (viewer : Option String) (postsData : List FeedItem) :
    List PostOut :=
  postsData.map (assemblePostItem db viewer postsData)

/-- Whether the viewer has liked the post (the per-post GET /api/likes
status check; not part of the feed payload). -/
def viewerLiked (db : DB) (v pid : String) : Bool :=
  db.likes.any (fun l => l.post_id == pid && l.user_id == v)

theorem foldl_previewStep (db : DB) (cm : String → List MentionOut) (q : String) :
    ∀ (cs : List CommentRow) (m : String → List CommentOut),
      (cs.foldl (previewStep db cm) m) q
        = m q ++ ((cs.filter (fun c => c.post_id == q)).take (2 - (m q).length)).map
            (toCommentOut db cm) := by
  intro cs
  induction cs with
  | nil => intro m; simp
  | cons c rest ih =>
    intro m
    rw [List.foldl_cons, ih, List.filter_cons]
    cases hq : (c.post_id == q)
    · have hm : previewStep db cm m c q = m q := by
        rw [previewStep]
        simp [hq]
      rw [hm]
      simp
    · by_cases hlen : (m q).length < 2
      · have hm : previewStep db cm m c q = m q ++ [toCommentOut db cm c] := by
          rw [previewStep]
          simp [hq, hlen]
      -- new accumulator length is one larger
        rw [hm]
        have hstep : 2 - (m q).length = (2 - (m q ++ [toCommentOut db cm c]).length) + 1 := by
          simp only [List.length_append, List.length_cons, List.length_nil]
          omega
        simp only [hstep, if_true, List.take_succ_cons, List.map_cons, List.append_assoc,
          List.singleton_append]
      · have hm : previewStep db cm m c q = m q := by
          rw [previewStep]
          simp [hq, hlen]
        rw [hm]
        have h0 : 2 - (m q).length = 0 := by omega
        simp [h0]

theorem previewMap_eq (db : DB) (cm : String → List MentionOut) (cs : List CommentRow)
    (q : String) :
    previewMap db cm cs q
      = ((cs.filter (fun c => c.post_id == q)).take 2).map (toCommentOut db cm) := by
  rw [previewMap, foldl_previewStep]
  simp

/-- All mentions of a post's caption, resolved: rows whose post_id is the
given id with no comment parent and a resolvable mentioned user. -/
def postMentionsSpec (db : DB) (pid : String) : List MentionOut :=
  db.mentions.filterMap (fun row =>
    if row.comment_id.isNone then
      match row.post_id, findUser db row.mentioned_user_id with
      | some k, some u => if k == pid then some ⟨row.display_text, u⟩ else none
      | _, _ => none
    else none)

/-- All mentions of a comment, resolved: rows whose comment_id is the
given id with no post parent and a resolvable mentioned user. -/
def commentMentionsSpec (db : DB) (cid : String) : List MentionOut :=
  db.mentions.filterMap (fun row =>
    if row.post_id.isNone then
      match row.comment_id, findUser db row.mentioned_user_id with
      | some k, some u => if k == cid then some ⟨row.display_text, u⟩ else none
      | _, _ => none
    else none)

theorem postMentions_lookup (db : DB) (postIds : List String) (pid : String)
    (hmem : pid ∈ postIds) :
    postMentionsMap db (fetchedPostMentions db postIds) pid = postMentionsSpec db pid := by
  rw [postMentionsMap, appendGroup_eq, fetchedPostMentions, List.filterMap_filter,
    postMentionsSpec]
  refine List.filterMap_congr ?_
  intro row _
  cases hpid : row.post_id with
  | none => cases hcid : row.comment_id.isNone <;> simp [postMentionSel, hpid, hcid]
  | some k =>
    cases hu : findUser db row.mentioned_user_id with
    | none => cases hcid : row.comment_id.isNone <;> simp [postMentionSel, hpid, hu, hcid]
    | some u =>
      cases hcid : row.comment_id.isNone
      · simp [postMentionSel, hpid, hu, hcid]
      · cases hk : (k == pid)
        · simp [postMentionSel, hpid, hu, hcid, hk]
        · have hkp : k = pid := by simpa using hk
          have hcont : postIds.contains k = true := List.elem_iff.mpr (hkp ▸ hmem)
          simp [postMentionSel, hpid, hu, hcid, hk, hcont]
          exact hkp ▸ hmem

theorem commentMentions_lookup (db : DB) (commentIds : List String) (cid : String)
    (hmem : cid ∈ commentIds) (hne : cid.isEmpty = false) :
    commentMentionsMap db (fetchedCommentMentions db commentIds) cid
      = commentMentionsSpec db cid := by
  rw [commentMentionsMap, appendGroup_eq, fetchedCommentMentions, List.filterMap_filter,
    commentMentionsSpec]
  refine List.filterMap_congr ?_
  intro row _
  cases hcidr : row.comment_id with
  | none => cases hpid : row.post_id.isNone <;> simp [commentMentionSel, hcidr, hpid]
  | some k =>
    cases hu : findUser db row.mentioned_user_id with
    | none => cases hpid : row.post_id.isNone <;> simp [commentMentionSel, hcidr, hu, hpid]
    | some u =>
      cases hpid : row.post_id.isNone
      · simp [commentMentionSel, hcidr, hu, hpid]
      · cases hk : (k == cid)
        · cases hke : k.isEmpty <;> simp [commentMentionSel, hcidr, hu, hpid, hk, hke]
        · have hkp : k = cid := by simpa using hk
          have hcont : commentIds.contains k = true := List.elem_iff.mpr (hkp ▸ hmem)
          simp [commentMentionSel, hcidr, hu, hpid, hk, hcont, hkp, hne]
          exact hmem

theorem bookmarks_lookup (db : DB) (viewer : Option String) (postIds : List String)
    (pid : String) (hmem : pid ∈ postIds) :
    (bookmarkedIds db viewer postIds).contains pid
      = (match viewer with
         | none => false
         | some v => db.bookmarks.any (fun b => b.user_id == v && b.post_id == pid)) := by
  cases viewer with
  | none => rfl
  | some v =>
    refine Bool.coe_iff_coe.mp ?_
    rw [bookmarkedIds]
    constructor
    · intro h
      rcases List.mem_map.mp (List.elem_iff.mp h) with ⟨b, hb, hbp⟩
      have hb2 := List.mem_filter.mp hb
      refine List.any_eq_true.mpr ⟨b, hb2.1, ?_⟩
      have hcond := hb2.2
      simp only [Bool.and_eq_true] at hcond
      simp [hcond.1, hbp]
    · intro h
      rcases List.any_eq_true.mp h with ⟨b, hb, hcond⟩
      simp only [Bool.and_eq_true] at hcond
      have hbp : b.post_id = pid := by simpa using hcond.2
      refine List.elem_iff.mpr (List.mem_map.mpr ⟨b, ?_, hbp⟩)
      refine List.mem_filter.mpr ⟨hb, ?_⟩
      have hcont : postIds.contains b.post_id = true := List.elem_iff.mpr (hbp ▸ hmem)
      simp [hcond.1, hcont]
      exact hbp ▸ hmem

theorem fetchedComments_filter (db : DB) (postIds : List String) (pid : String)
    (hmem : pid ∈ postIds) :
    (fetchedComments db postIds).filter (fun c => c.post_id == pid)
      = sortByDesc (fun c : CommentRow => c.created_at)
          (db.comments.filter (fun c => c.post_id == pid)) := by
  rw [fetchedComments, filter_sortByDesc]
  congr 1
  rw [List.filter_filter]
  refine List.filter_congr ?_
  intro c _
  cases hc : (c.post_id == pid)
  · simp
  · have hcp : c.post_id = pid := by simpa using hc
    have hcont : postIds.contains c.post_id = true := List.elem_iff.mpr (hcp ▸ hmem)
    simp [hcont]
    exact hcp ▸ hmem

/-- C5 (amended): every assembled feed post carries, as its preview,
exactly the two most-recently-created comments of the post in descending
creation order, each joined with its author and its resolved mentions;
it carries all resolved mentions of its own caption; and isBookmarked is
true iff an authenticated viewer has bookmarked the post.  The payload
has no liked flag at all: whether the viewer has liked a post is served
by the separate per-post like-status endpoint (see the counterexample
showing two stores with different viewer-like state and identical
payloads). -/
theorem feed_attachments_correct :
    ∀ (db : DB) (viewer : Option String) (postsData : List FeedItem) (p : FeedItem),
      p ∈ postsData → p.post_id.isEmpty = false →
      (∀ c ∈ db.comments, c.id.isEmpty = false) →
      (assemblePostItem db viewer postsData p).comments
          = ((sortByDesc (fun c : CommentRow => c.created_at)
              (db.comments.filter (fun c => c.post_id == p.post_id))).take 2).map
                (toCommentOut db (commentMentionsSpec db)) ∧
      (assemblePostItem db viewer postsData p).comments.length ≤ 2 ∧
      (assemblePostItem db viewer postsData p).mentions = postMentionsSpec db p.post_id ∧
      (assemblePostItem db viewer postsData p).isBookmarked
          = (match viewer with
             | none => false
             | some v => db.bookmarks.any (fun b => b.user_id == v && b.post_id == p.post_id)) ∧
      assembleFeed db viewer postsData = postsData.map (assemblePostItem db viewer postsData) := by
  intro db viewer postsData p hp hpid hcids
  have hmem : p.post_id ∈ pagePostIds postsData := by
    rw [pagePostIds]
    exact List.mem_filter.mpr ⟨List.mem_map_of_mem _ hp, by simp [hpid]⟩
  have hcomments : (assemblePostItem db viewer postsData p).comments
      = ((sortByDesc (fun c : CommentRow => c.created_at)
          (db.comments.filter (fun c => c.post_id == p.post_id))).take 2).map
            (toCommentOut db (commentMentionsSpec db)) := by
    have hfield : (assemblePostItem db viewer postsData p).comments
        = previewMap db
            (commentMentionsMap db (fetchedCommentMentions db
              ((fetchedComments db (pagePostIds postsData)).map (fun c => c.id))))
            (fetchedComments db (pagePostIds postsData)) p.post_id := rfl
    rw [hfield, previewMap_eq, fetchedComments_filter db _ _ hmem]
    refine List.map_eq_map_iff.mpr ?_
    intro c hc
    have h1 : c ∈ sortByDesc (fun c : CommentRow => c.created_at)
        (db.comments.filter (fun c => c.post_id == p.post_id)) :=
      (List.take_sublist _ _).subset hc
    have h2 : c ∈ db.comments.filter (fun c => c.post_id == p.post_id) :=
      (perm_sortByDesc _ _).mem_iff.mp h1
    have h3 := List.mem_filter.mp h2
    have hpidc : c.post_id = p.post_id := by simpa using h3.2
    have hcont : (pagePostIds postsData).contains c.post_id = true :=
      List.elem_iff.mpr (hpidc ▸ hmem)
    have h4 : c ∈ fetchedComments db (pagePostIds postsData) :=
      (perm_sortByDesc _ _).mem_iff.mpr (List.mem_filter.mpr ⟨h3.1, hcont⟩)
    have hcidmem : c.id ∈ (fetchedComments db (pagePostIds postsData)).map (fun c => c.id) :=
      List.mem_map_of_mem _ h4
    rw [toCommentOut, toCommentOut,
      commentMentions_lookup db _ c.id hcidmem (hcids c h3.1)]
  refine ⟨hcomments, ?_, ?_, ?_, rfl⟩
  · rw [hcomments, List.length_map]
    exact Nat.le_trans (List.length_take_le _ _) (Nat.le_refl 2)
  · exact postMentions_lookup db _ _ hmem
  · exact bookmarks_lookup db viewer _ _ hmem

/-- A store with one post, three comments and mentions on both the post
and a comment, viewed by an authenticated bookmarking user. -/
def previewDB : DB :=
  { users := [⟨"uA", "cA", "A"⟩, ⟨"uV", "cV", "V"⟩],
    posts := [⟨"p1", "uA", "i", none, 1⟩],
    likes := [],
    comments := [⟨"c1", "p1", "uV", "one", 1⟩, ⟨"c2", "p1", "uV", "two", 2⟩,
                 ⟨"c3", "p1", "uV", "three", 3⟩],
    mentions := [⟨some "p1", none, "uV", "uA", "V"⟩, ⟨none, some "c3", "uA", "uV", "A"⟩],
    bookmarks := [⟨"p1", "uV"⟩],
    follows := [] }

/-- The post_stats row of the previewDB post. -/
def previewItem : FeedItem := ⟨"p1", "uA", "i", none, 1, 0, 3⟩

/-- Witness for C5 at the concrete previewDB page. -/
theorem feed_attachments_correct_witness :
    (assemblePostItem previewDB (some "uV") [previewItem] previewItem).mentions
        = postMentionsSpec previewDB "p1" ∧
    (assemblePostItem previewDB (some "uV") [previewItem] previewItem).comments.length ≤ 2 :=
  have h := feed_attachments_correct previewDB (some "uV") [previewItem] previewItem
    (by decide) (by decide) (by decide)
  ⟨h.2.2.1, h.2.1⟩

/-- Store where the authenticated viewer uV has liked the only post. -/
def likedDB1 : DB :=
  { users := [⟨"uA", "cA", "A"⟩, ⟨"uV", "cV", "V"⟩, ⟨"uW", "cW", "W"⟩],
    posts := [⟨"p1", "uA", "i", none, 1⟩],
    likes := [⟨"p1", "uV"⟩],
    comments := [], mentions := [], bookmarks := [], follows := [] }

/-- The same store except the like belongs to uW, not the viewer. -/
def likedDB2 : DB :=
  { users := [⟨"uA", "cA", "A"⟩, ⟨"uV", "cV", "V"⟩, ⟨"uW", "cW", "W"⟩],
    posts := [⟨"p1", "uA", "i", none, 1⟩],
    likes := [⟨"p1", "uW"⟩],
    comments := [], mentions := [], bookmarks := [], follows := [] }

/-- C5 counterexample: the feed payload does not say whether the viewer
has liked a post.  Two stores differing exactly in whether viewer uV has
liked p1 produce identical GET /api/posts payloads (the view-path page
assembled for viewer uV), so no field of the payload can carry the
claimed per-viewer liked flag; only isBookmarked is attached. -/
theorem feed_no_viewer_like_flag_counterexample :
    assembleFeed likedDB1 (some "uV") (viewPathPosts likedDB1 none 1 10)
      = assembleFeed likedDB2 (some "uV") (viewPathPosts likedDB2 none 1 10) ∧
    viewerLiked likedDB1 "uV" "p1" = true ∧
    viewerLiked likedDB2 "uV" "p1" = false := by
  decide

/-! ## Client optimistic toggles (PostCard.tsx) -/

/-- An observable client event of the like interaction, in program
order: a state render, the network request (delete for un-like), or the
user-facing alert. -/
inductive LikeEvent
  | renderLike (liked : Bool) (count : Int)
  | sendRequest (isDelete : Bool)
  | showError
deriving DecidableEq

/-- Local like state of the card: flag, visible counter, in-flight
guard. -/
structure LikeToggleState where
  isLiked : Bool
  likesCount : Int
  isToggling : Bool
deriving DecidableEq

/-- handleLikeToggle: ignore when signed out or already in flight;
otherwise render the optimistic flip and counter first, then send the
add (POST) or remove (DELETE) request; on failure revert both and alert.
The request outcome is the ok argument. -/
def handleLikeToggle (signedIn : Bool) (s : LikeToggleState) (ok : Bool) :
    LikeToggleState × List LikeEvent :=
  if !signedIn then (s, [])
  else if s.isToggling then (s, [])
  else
    let newCount : Int := if s.isLiked then s.likesCount - 1 else s.likesCount + 1
    if ok then
      (⟨!s.isLiked, newCount, false⟩,
       [.renderLike (!s.isLiked) newCount, .sendRequest s.isLiked])
    else
      (⟨s.isLiked, s.likesCount, false⟩,
       [.renderLike (!s.isLiked) newCount, .sendRequest s.isLiked, .showError])

/-- C6: from the un-liked state the like toggle renders liked with the
counter incremented before the request is sent; on failure both revert
exactly to their previous values and an error is surfaced; the liked
direction is symmetric (decrement, DELETE); re-entrant clicks while a
request is in flight are ignored. -/
theorem like_toggle_optimistic :
    ∀ (s : LikeToggleState) (ok : Bool),
      (s.isToggling = true → handleLikeToggle true s ok = (s, [])) ∧
      (s.isToggling = false → s.isLiked = false →
        (handleLikeToggle true s ok).2.take 2
            = [.renderLike true (s.likesCount + 1), .sendRequest false] ∧
        (ok = true → (handleLikeToggle true s ok).1 = ⟨true, s.likesCount + 1, false⟩) ∧
        (ok = false →
          (handleLikeToggle true s ok).1 = ⟨false, s.likesCount, false⟩ ∧
          LikeEvent.showError ∈ (handleLikeToggle true s ok).2)) ∧
      (s.isToggling = false → s.isLiked = true →
        (handleLikeToggle true s ok).2.take 2
            = [.renderLike false (s.likesCount - 1), .sendRequest true] ∧
        (ok = true → (handleLikeToggle true s ok).1 = ⟨false, s.likesCount - 1, false⟩) ∧
        (ok = false →
          (handleLikeToggle true s ok).1 = ⟨true, s.likesCount, false⟩ ∧
          LikeEvent.showError ∈ (handleLikeToggle true s ok).2)) := by
  intro s ok
  obtain ⟨l, c, t⟩ := s
  cases l <;> cases t <;> cases ok <;> simp [handleLikeToggle]

/-- Witness for C6: in-flight click ignored; failed add reverts. -/
theorem like_toggle_optimistic_witness :
    handleLikeToggle true ⟨false, 5, true⟩ true = (⟨false, 5, true⟩, []) ∧
    (handleLikeToggle true ⟨false, 5, false⟩ false).1 = ⟨false, 5, false⟩ :=
  ⟨(like_toggle_optimistic ⟨false, 5, true⟩ true).1 rfl,
   (((like_toggle_optimistic ⟨false, 5, false⟩ false).2.1 rfl rfl).2.2 rfl).1⟩

/-- An observable client event of the bookmark interaction. -/
inductive BookmarkEvent
  | renderBookmark (b : Bool)
  | sendRequest (isDelete : Bool)
  | showError
deriving DecidableEq

/-- Local bookmark state of the card: flag and in-flight guard. -/
structure BookmarkToggleState where
  isBookmarked : Bool
  isBookmarking : Bool
deriving DecidableEq

/-- handleBookmarkToggle: ignore when signed out or in flight; send the
request first (POST when not bookmarked, DELETE when bookmarked); set
the flag only after success; on failure leave the state and alert. -/
def handleBookmarkToggle (signedIn : Bool) (s : BookmarkToggleState) (ok : Bool) :
    BookmarkToggleState × List BookmarkEvent :=
  if !signedIn then (s, [])
  else if s.isBookmarking then (s, [])
  else if ok then
    (⟨!s.isBookmarked, false⟩,
     [.sendRequest s.isBookmarked, .renderBookmark (!s.isBookmarked)])
  else
    (⟨s.isBookmarked, false⟩, [.sendRequest s.isBookmarked, .showError])

/-- C7 counterexample: the bookmark toggle does not update local state
before the network call.  From the un-bookmarked idle state the first
observable event is the request, not a render; on failure no state
change ever happened (so there is nothing to roll back), and on success
the render comes only after the request. -/
theorem bookmark_not_optimistic_counterexample :
    (handleBookmarkToggle true ⟨false, false⟩ true).2
        = [.sendRequest false, .renderBookmark true] ∧
    (handleBookmarkToggle true ⟨false, false⟩ false).2
        = [.sendRequest false, .showError] ∧
    (handleBookmarkToggle true ⟨false, false⟩ false).1 = ⟨false, false⟩ ∧
    (handleBookmarkToggle true ⟨false, false⟩ true).2.head?
        ≠ some (.renderBookmark true) := by
  decide

/-- C7 (amended): the bookmark toggle sends the network request first
and updates the local flag only on success; on failure the flag is
unchanged (no rollback needed) and an error is surfaced; re-entrant
clicks while in flight are ignored.  Unlike the like and follow
toggles, it performs no optimistic update. -/
theorem bookmark_toggle_request_first :
    ∀ (s : BookmarkToggleState) (ok : Bool),
      (s.isBookmarking = true → handleBookmarkToggle true s ok = (s, [])) ∧
      (s.isBookmarking = false →
        (handleBookmarkToggle true s ok).2.head? = some (.sendRequest s.isBookmarked) ∧
        (ok = true →
          handleBookmarkToggle true s ok
            = (⟨!s.isBookmarked, false⟩,
               [.sendRequest s.isBookmarked, .renderBookmark (!s.isBookmarked)])) ∧
        (ok = false →
          handleBookmarkToggle true s ok
            = (⟨s.isBookmarked, false⟩, [.sendRequest s.isBookmarked, .showError]))) := by
  intro s ok
  obtain ⟨b, f⟩ := s
  cases b <;> cases f <;> cases ok <;> simp [handleBookmarkToggle]

/-- Witness for C7 at concrete states. -/
theorem bookmark_toggle_request_first_witness :
    handleBookmarkToggle true ⟨true, true⟩ true = (⟨true, true⟩, []) ∧
    (handleBookmarkToggle true ⟨false, false⟩ false).2.head?
        = some (.sendRequest false) :=
  ⟨(bookmark_toggle_request_first ⟨true, true⟩ true).1 rfl,
   ((bookmark_toggle_request_first ⟨false, false⟩ false).2 rfl).1⟩

/-! ## POST /api/likes and POST /api/follows (server) -/

/-- The like-add handler: 401 without a session, 400 without post_id,
404 when the clerk id has no users row, 409 on the unique (post, user)
conflict (error 23505), otherwise insert and 200. -/
def likePostApi (db : DB) (authClerk : Option String) (postId : Option String) :
    Nat × DB :=
  match authClerk with
  | none => (401, db)
  | some clerk =>
    match postId with
    | none => (400, db)
    | some pid =>
      match db.users.find? (fun u => u.clerk_id == clerk) with
      | none => (404, db)
      | some u =>
        if db.likes.any (fun l => l.post_id == pid && l.user_id == u.id) then (409, db)
        else (200, { db with likes := db.likes ++ [⟨pid, u.id⟩] })

/-- Store where clerk user cV has already liked the post. -/
def likesDupDB : DB :=
  { users := [⟨"uV", "cV", "V"⟩],
    posts := [⟨"p1", "uV", "i", none, 1⟩],
    likes := [⟨"p1", "uV"⟩],
    comments := [], mentions := [], bookmarks := [], follows := [] }

/-- C8 counterexample: a duplicate add does resolve to 409, but it IS
surfaced as an error to the user: the client's like toggle, on any
non-ok response including the 409, raises the alert (the showError
event), contradicting the not-surfaced-to-the-user part of the claim. -/
theorem like_conflict_alert_counterexample :
    likePostApi likesDupDB (some "cV") (some "p1") = (409, likesDupDB) ∧
    LikeEvent.showError ∈ (handleLikeToggle true ⟨false, 0, false⟩ false).2 := by
  decide

/-- C8 (amended): when the (post, user) pair already exists the server
answers 409 and leaves the store unchanged — a handled uniqueness
conflict, not a 500 failure; the client rolls the optimistic increment
back, so after the failed duplicate add the displayed count and liked
state equal their values before the click (no double increment), and the
conflict message is surfaced to the user via the alert. -/
theorem like_duplicate_conflict :
    ∀ (db : DB) (clerk pid : String) (u : UserRow) (s : LikeToggleState),
      db.users.find? (fun w => w.clerk_id == clerk) = some u →
      db.likes.any (fun l => l.post_id == pid && l.user_id == u.id) = true →
      likePostApi db (some clerk) (some pid) = (409, db) ∧
      (s.isToggling = false →
        (handleLikeToggle true s false).1.likesCount = s.likesCount ∧
        (handleLikeToggle true s false).1.isLiked = s.isLiked ∧
        LikeEvent.showError ∈ (handleLikeToggle true s false).2) := by
  intro db clerk pid u s hfind hdup
  constructor
  · simp [likePostApi, hfind, hdup]
  · intro ht
    obtain ⟨l, c, t⟩ := s
    subst ht
    cases l <;> simp [handleLikeToggle]

/-- Witness for C8 at the concrete duplicate store. -/
theorem like_duplicate_conflict_witness :
    likePostApi likesDupDB (some "cV") (some "p1") = (409, likesDupDB) ∧
    (handleLikeToggle true ⟨true, 3, false⟩ false).1.likesCount = 3 :=
  have h := like_duplicate_conflict likesDupDB "cV" "p1" ⟨"uV", "cV", "V"⟩
    ⟨true, 3, false⟩ (by decide) (by decide)
  ⟨h.1, (h.2 rfl).1⟩

/-- The follow-add handler: 401 unauthenticated, 400 missing target,
400 when the target clerk id equals the requester (self-follow guard),
404 on unresolved users, 409 on the duplicate pair (23505); a residual
self-pair insert would violate the CHECK follower_id <> following_id
(23514), handled as a plain failure (500) — so no self row is ever
stored. -/
def followPostApi (db : DB) (authClerk : Option String) (targetClerk : Option String) :
    Nat × DB :=
  match authClerk with
  | none => (401, db)
  | some cur =>
    match targetClerk with
    | none => (400, db)
    | some tgt =>
      if cur == tgt then (400, db)
      else
        match db.users.find? (fun u => u.clerk_id == cur) with
        | none => (404, db)
        | some curU =>
          match db.users.find? (fun u => u.clerk_id == tgt) with
          | none => (404, db)
          | some tgtU =>
            if db.follows.any (fun f =>
                f.follower_id == curU.id && f.following_id == tgtU.id) then (409, db)
            else if curU.id == tgtU.id then (500, db)
            else (201, { db with follows := db.follows ++ [⟨curU.id, tgtU.id⟩] })

/-- C9: a follow request whose target equals the requester is rejected
with 400 and leaves the store unchanged, and no execution of the follow
handler ever adds a row with follower_id = following_id: the no-self-pair
invariant of the follows table (the CHECK constraint) is preserved by
every request, whatever its origin. -/
theorem self_follow_rejected :
    (∀ (db : DB) (cur : String), followPostApi db (some cur) (some cur) = (400, db)) ∧
    (∀ (db : DB) (a t : Option String),
      (∀ f ∈ db.follows, f.follower_id ≠ f.following_id) →
      ∀ f ∈ (followPostApi db a t).2.follows, f.follower_id ≠ f.following_id) := by
  constructor
  · intro db cur
    simp [followPostApi]
  · intro db a t hinv f hf
    rcases a with _ | cur
    · exact hinv f hf
    rcases t with _ | tgt
    · exact hinv f hf
    simp only [followPostApi] at hf
    by_cases hct : (cur == tgt) = true
    · rw [if_pos hct] at hf; exact hinv f hf
    rw [if_neg hct] at hf
    cases hcu : db.users.find? (fun u => u.clerk_id == cur) with
    | none => rw [hcu] at hf; exact hinv f hf
    | some curU =>
      rw [hcu] at hf
      dsimp only at hf
      cases htu : db.users.find? (fun u => u.clerk_id == tgt) with
      | none => rw [htu] at hf; exact hinv f hf
      | some tgtU =>
        rw [htu] at hf
        dsimp only at hf
        by_cases hdup : (db.follows.any fun g =>
            g.follower_id == curU.id && g.following_id == tgtU.id) = true
        · rw [if_pos hdup] at hf; exact hinv f hf
        rw [if_neg hdup] at hf
        by_cases hself : (curU.id == tgtU.id) = true
        · rw [if_pos hself] at hf; exact hinv f hf
        rw [if_neg hself] at hf
        rcases List.mem_append.mp hf with h | h
        · exact hinv f h
        · have hfe : f = ⟨curU.id, tgtU.id⟩ := List.mem_singleton.mp h
          subst hfe
          simpa using hself

/-- Store with two users and no follows. -/
def followExDB : DB :=
  { users := [⟨"uA", "cA", "A"⟩, ⟨"uB", "cB", "B"⟩],
    posts := [], likes := [], comments := [], mentions := [], bookmarks := [],
    follows := [] }

/-- Witness for C9: self-follow rejected; a successful follow preserves
the no-self-pair invariant. -/
theorem self_follow_rejected_witness :
    followPostApi followExDB (some "cA") (some "cA") = (400, followExDB) ∧
    (∀ f ∈ (followPostApi followExDB (some "cA") (some "cB")).2.follows,
      f.follower_id ≠ f.following_id) :=
  ⟨self_follow_rejected.1 followExDB "cA",
   self_follow_rejected.2 followExDB (some "cA") (some "cB") (by decide)⟩

/-! ## Initial like state of the post card (PostCard.tsx line 92 and the
like-status effect) -/

/-- The initial liked useState value: post.isLiked OR the field being
absent, so an absent flag renders as already liked. -/
def initialIsLiked : Option Bool → Bool
  | none => true
  | some b => b

/-- JS truthiness of an optional string (null, undefined and the empty
string are falsy). -/
def jsFalsyStr : Option String → Bool
  | none => true
  | some s => s.isEmpty

/-- The like-status effect: a signed-out or id-less viewer is forced to
not-liked; otherwise a resolved fetch overwrites the flag with the
server value (or-false) and a failed fetch leaves the state. -/
def likeStatusEffect (isSignedIn : Bool) (userId : Option String)
    (fetched : Option Bool) (cur : Bool) : Bool :=
  if !isSignedIn || jsFalsyStr userId then false
  else
    match fetched with
    | some b => b
    | none => cur

/-- C10: a post object whose isLiked field is absent renders as already
liked (initial state true) until the like-status fetch resolves, while
present flags render as given; and a signed-out viewer is forced to
not-liked by the effect, a resolved fetch overwriting the flag
otherwise. -/
theorem postcard_initial_liked :
    initialIsLiked none = true ∧
    initialIsLiked (some false) = false ∧
    initialIsLiked (some true) = true ∧
    (∀ uid fetched cur, likeStatusEffect false uid fetched cur = false) ∧
    (∀ fetched cur, likeStatusEffect true none fetched cur = false) ∧
    (∀ u b cur, likeStatusEffect true (some u) (some b) cur
        = if u.isEmpty then false else b) ∧
    (∀ u cur, likeStatusEffect true (some u) none cur
        = if u.isEmpty then false else cur) :=
  ⟨rfl, rfl, rfl, fun _ _ _ => rfl, fun _ _ => rfl, fun _ _ _ => rfl, fun _ _ => rfl⟩
